import Mathlib

/-!
Verification of the natprobe client/server (Go) against its specification.

Shallow embedding conventions:
* `net.IP` (a Go byte slice) is a `List Nat` of byte values.
* Go strings used purely as map/dedup keys (`ip.String()`, `addr.String()`,
  `probe.key()`) are replaced by injective key functions: Go's textual form
  collapses an IPv4 address and its 4-in-6 mapped form to the same string,
  which is exactly what `ipKey` does.
* nil pointers become `Option`; code paths that dereference a nil pointer
  (a Go runtime panic) are modelled as `none` results.
* Go `int` ports are modelled as `Nat` (all ports handled by the program are
  non-negative).
-/

/-- `net.IP`: a slice of bytes. -/
abbrev IP := List Nat

/-- `v4InV6Prefix` from the net package: the 12-byte prefix of an
IPv4-in-IPv6 mapped address. -/
def v4in6 : IP := [0, 0, 0, 0, 0, 0, 0, 0, 0, 0, 255, 255]

/-- `net.IP.To4`: the 4-byte form of an IPv4 address, `none` (Go `nil`)
otherwise. -/
def ipTo4 (ip : IP) : Option IP :=
  if ip.length = 4 then some ip
  else if ip.length = 16 ∧ ip.take 12 = v4in6 then some (ip.drop 12)
  else none

/-- `net.IP.To16`: the 16-byte form, `none` for invalid lengths. -/
def ipTo16 (ip : IP) : Option IP :=
  if ip.length = 4 then some (v4in6 ++ ip)
  else if ip.length = 16 then some ip
  else none

/-- `net.IP.Equal`: byte equality up to the 4-in-6 collapse. -/
def ipEqual (ip x : IP) : Bool :=
  if ip.length = x.length then ip == x
  else if ip.length = 4 ∧ x.length = 16 then x.take 12 == v4in6 && ip == x.drop 12
  else if ip.length = 16 ∧ x.length = 4 then ip.take 12 == v4in6 && ip.drop 12 == x
  else false

/-- `net.IPv4(a, b, c, d)`: Go returns the 16-byte mapped form. -/
def ipv4 (a b c d : Nat) : IP := v4in6 ++ [a, b, c, d]

/-- `net.IPv4zero`. -/
def ipv4zero : IP := ipv4 0 0 0 0

/-- `net.IPv6unspecified`. -/
def ipv6unspec : IP := List.replicate 16 0

/-- `net.IP.IsUnspecified`. -/
def isUnspecified (ip : IP) : Bool := ipEqual ip ipv4zero || ipEqual ip ipv6unspec

/-- Injective stand-in for `ip.String()` used as a map key: Go's string form
identifies an IPv4 address with its 4-in-6 mapped form and nothing else, so
the canonical 4-byte form (when it exists) is a faithful key. -/
def ipKey (ip : IP) : IP := (ipTo4 ip).getD ip

/-- `net.UDPAddr` (zones are never used by this program). -/
structure UDPAddr where
  ip : IP
  port : Nat
deriving DecidableEq, Repr

/-- Stand-in for `addr.String()` as a map key. -/
def epKey (a : UDPAddr) : IP × Nat := (ipKey a.ip, a.port)

/-- `MappingProbe`.  `Mapped` is a nil-able pointer in Go: `none` on timeout
records. -/
structure MappingProbe where
  Local : UDPAddr
  Mapped : Option UDPAddr
  Remote : UDPAddr
  Timeout : Bool
deriving DecidableEq, Repr

/-- Reading `probe.Mapped` where the analyzer only does so on non-timeout
probes; the default is never reached on well-formed data. -/
def MappingProbe.mappedD (p : MappingProbe) : UDPAddr := p.Mapped.getD ⟨[], 0⟩

/-- `MappingProbe.key()`: the identity 4-tuple rendered as text; the
space-separated string is injective in the four key components. -/
def probeKey (p : MappingProbe) : (IP × Nat) × Option (IP × Nat) × (IP × Nat) × Bool :=
  (epKey p.Local, p.Mapped.map epKey, epKey p.Remote, p.Timeout)

/-- `FirewallProbe`. -/
structure FirewallProbe where
  Local : UDPAddr
  Remote : UDPAddr
  Received : List UDPAddr
deriving DecidableEq, Repr

/-- `Result`.  `FirewallProbes` is a nil-able pointer. -/
structure Result where
  LocalIPs : List IP
  MappingProbes : List MappingProbe
  FirewallProbes : Option FirewallProbe
deriving DecidableEq, Repr

/-- `Analysis`. -/
structure Analysis where
  NoData : Bool
  NoNAT : Bool
  MappingVariesByDestIP : Bool
  MappingVariesByDestPort : Bool
  FirewallEnforcesDestIP : Bool
  FirewallEnforcesDestPort : Bool
  MappingPreservesSourcePort : Bool
  MultiplePublicIPs : Bool
  FilteredEgress : List Nat
deriving DecidableEq, Repr

/-- `noData`. -/
def noData (r : Result) : Bool :=
  if r.MappingProbes.length = 0 then true
  else r.MappingProbes.all fun p => p.Timeout

/-- `noNAT`: every non-timeout probe's mapped IP is (by string form) one of
the local IPs. -/
def noNAT (r : Result) : Bool :=
  let ips := r.LocalIPs.map ipKey
  r.MappingProbes.all fun p =>
    if p.Timeout then true
    else ips.contains (ipKey p.mappedD.ip)

/-- The non-timeout mapping probes of a result. -/
def nonTimeoutProbes (r : Result) : List MappingProbe :=
  r.MappingProbes.filter fun p => !p.Timeout

/-- `mappingPreservesSourcePort`: the loop counts `total` non-timeout probes
and `preserved` probes with `Local.Port == Mapped.Port`, then compares
`float64(preserved)/float64(total) >= 0.8`.  The division is modelled
exactly over `ℚ` (for `total = 0` Go computes `NaN >= 0.8 = false`, and
`0/0 = 0 < 4/5` here; for `total > 0` double rounding cannot cross `4/5`
for any count reachable by the program). -/
def mappingPreservesSourcePort (r : Result) : Bool :=
  let total := (nonTimeoutProbes r).length
  let preserved := ((nonTimeoutProbes r).filter fun p => p.Local.port == p.mappedD.port).length
  decide ((4 : ℚ) / 5 ≤ (preserved : ℚ) / (total : ℚ))

/-- `multiplePublicIPs`: more than one distinct mapped IP (by string form)
among non-timeout probes. -/
def multiplePublicIPs (r : Result) : Bool :=
  decide (1 < ((nonTimeoutProbes r).map fun p => ipKey p.mappedD.ip).dedup.length)

/-- The second loop of `filteredEgress`: collect timeout ports not in
`working`, inserting each collected port into `working`. -/
def feLoop : List MappingProbe → List Nat → List Nat
  | [], _ => []
  | p :: ps, working =>
    if p.Timeout && !working.contains p.Remote.port
    then p.Remote.port :: feLoop ps (p.Remote.port :: working)
    else feLoop ps working

/-- `filteredEgress` (`sort.Ints` modelled by insertion sort). -/
def filteredEgress (r : Result) : List Nat :=
  let working := (nonTimeoutProbes r).map fun p => p.Remote.port
  List.insertionSort (· ≤ ·) (feLoop r.MappingProbes working)

/-- `mappingVariesByDestIP`: the Go loop, with the four anchor variables as
parameters.  The `local` string anchor starts as `""`, which no endpoint
stringifies to; it is modelled as `none`. -/
def mvdIPLoop : List MappingProbe → Option (IP × Nat) → IP → IP → Nat → Bool
  | [], _, _, _, _ => false
  | p :: ps, lk, remoteIP, mappedIP, mappedPort =>
    if p.Timeout then mvdIPLoop ps lk remoteIP mappedIP mappedPort
    else if some (epKey p.Local) ≠ lk then
      mvdIPLoop ps (some (epKey p.Local)) p.Remote.ip p.mappedD.ip p.mappedD.port
    else if ipEqual p.Remote.ip remoteIP then
      mvdIPLoop ps lk remoteIP mappedIP mappedPort
    else if !ipEqual p.mappedD.ip mappedIP || p.mappedD.port ≠ mappedPort then true
    else mvdIPLoop ps lk remoteIP mappedIP mappedPort

/-- `mappingVariesByDestIP`. -/
def mappingVariesByDestIP (r : Result) : Bool :=
  mvdIPLoop r.MappingProbes none [] [] 0

/-- `mappingVariesByDestPort`: same loop with the remote-port axis. -/
def mvdPortLoop : List MappingProbe → Option (IP × Nat) → Nat → IP → Nat → Bool
  | [], _, _, _, _ => false
  | p :: ps, lk, remotePort, mappedIP, mappedPort =>
    if p.Timeout then mvdPortLoop ps lk remotePort mappedIP mappedPort
    else if some (epKey p.Local) ≠ lk then
      mvdPortLoop ps (some (epKey p.Local)) p.Remote.port p.mappedD.ip p.mappedD.port
    else if p.Remote.port = remotePort then
      mvdPortLoop ps lk remotePort mappedIP mappedPort
    else if !ipEqual p.mappedD.ip mappedIP || p.mappedD.port ≠ mappedPort then true
    else mvdPortLoop ps lk remotePort mappedIP mappedPort

/-- `mappingVariesByDestPort`. -/
def mappingVariesByDestPort (r : Result) : Bool :=
  mvdPortLoop r.MappingProbes none 0 [] 0

/-- `firewallEnforcesDestIP`. -/
def firewallEnforcesDestIP (r : Result) : Bool :=
  match r.FirewallProbes with
  | none => false
  | some fp => fp.Received.all fun a => ipEqual a.ip fp.Remote.ip

/-- `firewallEnforcesDestPort`. -/
def firewallEnforcesDestPort (r : Result) : Bool :=
  match r.FirewallProbes with
  | none => false
  | some fp => fp.Received.all fun a => a.port == fp.Remote.port

/-- `Result.Analyze`. -/
def Result.Analyze (r : Result) : Analysis :=
  { NoData := noData r
    NoNAT := noNAT r
    MappingVariesByDestIP := mappingVariesByDestIP r
    MappingVariesByDestPort := mappingVariesByDestPort r
    FirewallEnforcesDestIP := firewallEnforcesDestIP r
    FirewallEnforcesDestPort := firewallEnforcesDestPort r
    MappingPreservesSourcePort := mappingPreservesSourcePort r
    MultiplePublicIPs := multiplePublicIPs r
    FilteredEgress := filteredEgress r }

/-- Anchor of the §4.6 scan as the spec words it, for the destination-IP
axis: (anchor_local, anchor_remote_ip, anchor_mapped_ip, anchor_mapped_port). -/
structure SpecAnchorIP where
  aLocal : IP × Nat
  aRemoteIP : IP
  aMappedIP : IP
  aMappedPort : Nat

/-- Modelled from the spec's words (§4.6), destination-IP axis: walk the
probes; the first non-timeout probe establishes the anchor; a probe whose
local endpoint differs resets the anchor; a probe whose remote IP equals
the anchor's is skipped; otherwise return true exactly when its mapped
endpoint differs from the anchor's; false if the scan completes. -/
def specVariesByDestIPLoop : List MappingProbe → Option SpecAnchorIP → Bool
  | [], _ => false
  | p :: ps, none =>
    if p.Timeout then specVariesByDestIPLoop ps none
    else specVariesByDestIPLoop ps
      (some ⟨epKey p.Local, p.Remote.ip, p.mappedD.ip, p.mappedD.port⟩)
  | p :: ps, some a =>
    if p.Timeout then specVariesByDestIPLoop ps (some a)
    else if epKey p.Local ≠ a.aLocal then
      specVariesByDestIPLoop ps
        (some ⟨epKey p.Local, p.Remote.ip, p.mappedD.ip, p.mappedD.port⟩)
    else if ipEqual p.Remote.ip a.aRemoteIP then specVariesByDestIPLoop ps (some a)
    else if !(ipEqual p.mappedD.ip a.aMappedIP && p.mappedD.port == a.aMappedPort) then true
    else specVariesByDestIPLoop ps (some a)

/-- The spec's scan over a result, destination-IP axis. -/
def specVariesByDestIP (r : Result) : Bool := specVariesByDestIPLoop r.MappingProbes none

/-- Anchor of the §4.6 scan, destination-port axis. -/
structure SpecAnchorPort where
  aLocal : IP × Nat
  aRemotePort : Nat
  aMappedIP : IP
  aMappedPort : Nat

/-- Modelled from the spec's words (§4.6), destination-port axis. -/
def specVariesByDestPortLoop : List MappingProbe → Option SpecAnchorPort → Bool
  | [], _ => false
  | p :: ps, none =>
    if p.Timeout then specVariesByDestPortLoop ps none
    else specVariesByDestPortLoop ps
      (some ⟨epKey p.Local, p.Remote.port, p.mappedD.ip, p.mappedD.port⟩)
  | p :: ps, some a =>
    if p.Timeout then specVariesByDestPortLoop ps (some a)
    else if epKey p.Local ≠ a.aLocal then
      specVariesByDestPortLoop ps
        (some ⟨epKey p.Local, p.Remote.port, p.mappedD.ip, p.mappedD.port⟩)
    else if p.Remote.port = a.aRemotePort then specVariesByDestPortLoop ps (some a)
    else if !(ipEqual p.mappedD.ip a.aMappedIP && p.mappedD.port == a.aMappedPort) then true
    else specVariesByDestPortLoop ps (some a)

/-- The spec's scan over a result, destination-port axis. -/
def specVariesByDestPort (r : Result) : Bool := specVariesByDestPortLoop r.MappingProbes none

/-- A 180-byte request frame whose first byte is `b0` and whose remaining
bytes are zero (`transmit` only ever writes byte 0 of `req`). -/
def reqFrame (b0 : Nat) : List Nat := b0 :: List.replicate 179 0

/-- The frames sent by one `transmit` sender loop for one destination,
starting from the current value of `req[0]` (the array starts zeroed; the
top-level entry point is `transmitFrames cycle 0 n`).  Each iteration
first executes `req[0] = (req[0] + 1) % 4` when `cycle` is set, then
sends.  The firewall phase runs this with `cycle = true` and a single
destination; the mapping phase uses `cycle = false`, in which case `req`
is never written at all (so concurrent per-destination senders all send
zero frames). -/
def transmitFrames (cycle : Bool) : Nat → Nat → List (List Nat)
  | _, 0 => []
  | st, n + 1 =>
    let st1 := if cycle then (st + 1) % 4 else st
    reqFrame st1 :: transmitFrames cycle st1 n

/-- Server `handle` reply construction: `copy(buf[:16], addr.IP.To16())`
followed by the truncated port, big-endian (`none` if `To16` is nil,
which the socket layer never produces). -/
def serverEncode (c : UDPAddr) : Option (List Nat) :=
  (ipTo16 c.ip).map fun b16 => b16 ++ [c.port % 65536 / 256, c.port % 256]

/-- Client decode of an 18-byte reflection in `probeOneMapping`:
`net.IP(buf[:16])` and `binary.BigEndian.Uint16(buf[16:18])`. -/
def clientDecode (frame : List Nat) : UDPAddr :=
  ⟨frame.take 16, 256 * frame.getD 16 0 + frame.getD 17 0⟩

/-- A datagram delivered to a client socket: source address and payload —
the nondeterministic input of one `probeOneMapping` receive loop. -/
structure Dgram where
  addr : UDPAddr
  payload : List Nat
deriving DecidableEq, Repr

/-- The receive loop of `probeOneMapping`: builds `ret`, the dedup set
`seen` (probe identity keys) and `seenByDest` (reply source addresses, by
string form), processing the delivered datagrams in order until the read
deadline; frames whose length is not 18 are skipped. -/
def pomLoop (lcl : UDPAddr) :
    List Dgram → List MappingProbe →
      List ((IP × Nat) × Option (IP × Nat) × (IP × Nat) × Bool) →
      List (IP × Nat) → List MappingProbe × List (IP × Nat)
  | [], ret, _, sbd => (ret, sbd)
  | ev :: rest, ret, seen, sbd =>
    if ev.payload.length ≠ 18 then pomLoop lcl rest ret seen sbd
    else
      let probe : MappingProbe := ⟨lcl, some (clientDecode ev.payload), ev.addr, false⟩
      if probeKey probe ∈ seen then pomLoop lcl rest ret seen sbd
      else pomLoop lcl rest (ret ++ [probe]) (seen ++ [probeKey probe]) (sbd ++ [epKey ev.addr])

/-- The list `probeOneMapping` actually hands back.  The deferred closure
that appends the timeout records runs *after* `return ret, nil` has copied
the slice header into the unnamed result slot, so those appends mutate
only the local variable: the returned list holds no timeout records. -/
def probeOneMapping (lcl : UDPAddr) (dests : List UDPAddr) (events : List Dgram) :
    List MappingProbe :=
  (pomLoop lcl events [] [] []).1

/-- The timeout records the deferred closure in `probeOneMapping` builds —
one per destination with no entry in `seenByDest` — which the unnamed-result
semantics above then discards. -/
def pomDeferredTimeouts (lcl : UDPAddr) (dests : List UDPAddr) (events : List Dgram) :
    List MappingProbe :=
  (dests.filter fun d => !((pomLoop lcl events [] [] []).2.contains (epKey d))).map
    fun d => ⟨lcl, none, d, true⟩

def pomLcl : UDPAddr := ⟨[10, 0, 0, 1], 5000⟩

def pomDest : UDPAddr := ⟨[9, 9, 9, 9], 443⟩

/-- The guard of the `anonymize` closure:
`len(ip) == 0 || ip.IsUnspecified()`. -/
def passIP (ip : IP) : Bool := ip.length == 0 || isUnspecified ip

/-- State of one `Anonymize` run: the `ips` map (string key → assigned IP,
kept as an insertion-ordered association list) and the byte counters
`a`, `b`. -/
structure AnonState where
  ips : List (IP × IP)
  a : Nat
  b : Nat
deriving DecidableEq, Repr

/-- Go map lookup `ips[ip.String()]` (assigned values are never nil). -/
def lookupA : List (IP × IP) → IP → Option IP
  | [], _ => none
  | e :: rest, k => if e.1 = k then some e.2 else lookupA rest k

/-- The `anonymize` closure: pass empty/unspecified IPs through, return an
existing assignment, or assign `net.IPv4(a, a, b, b)` and advance the byte
counters (`b++`, and `a++` when `b` wraps to 0). -/
def anonOne (s : AnonState) (ip : IP) : IP × AnonState :=
  if passIP ip then (ip, s)
  else
    match lookupA s.ips (ipKey ip) with
    | some ret => (ret, s)
    | none =>
      let ret := ipv4 s.a s.a s.b s.b
      let b1 := (s.b + 1) % 256
      let a1 := if b1 = 0 then (s.a + 1) % 256 else s.a
      (ret, ⟨s.ips ++ [(ipKey ip, ret)], a1, b1⟩)

/-- `anonymize` over a list of IPs in order, threading the state. -/
def anonIPs (s : AnonState) : List IP → List IP × AnonState
  | [] => ([], s)
  | ip :: rest =>
    let r1 := anonOne s ip
    let r2 := anonIPs r1.2 rest
    (r1.1 :: r2.1, r2.2)

/-- `x.IP = anonymize(x.IP)` on a UDP address. -/
def anonAddr (s : AnonState) (x : UDPAddr) : UDPAddr × AnonState :=
  let r := anonOne s x.ip
  (⟨r.1, x.port⟩, r.2)

/-- One probe inside `Anonymize`: Local, Mapped, Remote in program order.
On a timeout record `probe.Mapped` is nil and the Go code dereferences it
(`probe.Mapped.IP`) — a runtime panic, modelled as `none`. -/
def anonProbe (s : AnonState) (p : MappingProbe) : Option (MappingProbe × AnonState) :=
  match p.Mapped with
  | none => none
  | some m =>
    let r1 := anonAddr s p.Local
    let r2 := anonAddr r1.2 m
    let r3 := anonAddr r2.2 p.Remote
    some (⟨r1.1, some r2.1, r3.1, p.Timeout⟩, r3.2)

/-- The probe loop of `Anonymize`. -/
def anonProbes (s : AnonState) : List MappingProbe → Option (List MappingProbe × AnonState)
  | [] => some ([], s)
  | p :: ps =>
    match anonProbe s p with
    | none => none
    | some r =>
      match anonProbes r.2 ps with
      | none => none
      | some r2 => some (r.1 :: r2.1, r2.2)

/-- The `Received` loop of `Anonymize`. -/
def anonAddrs (s : AnonState) : List UDPAddr → List UDPAddr × AnonState
  | [] => ([], s)
  | x :: xs =>
    let r := anonAddr s x
    let r2 := anonAddrs r.2 xs
    (r.1 :: r2.1, r2.2)

/-- The firewall part of `Anonymize` (an early return when the probe is
nil). -/
def anonFirewall (s : AnonState) :
    Option FirewallProbe → Option FirewallProbe × AnonState
  | none => (none, s)
  | some fp =>
    let r1 := anonAddr s fp.Local
    let r2 := anonAddr r1.2 fp.Remote
    let r3 := anonAddrs r2.2 fp.Received
    (some ⟨r1.1, r2.1, r3.1⟩, r3.2)

/-- The initial `Anonymize` state: empty map, `a = b = 1`. -/
def state0 : AnonState := ⟨[], 1, 1⟩

/-- `Result.Anonymize`: local IPs, then each probe's Local/Mapped/Remote,
then the firewall probe.  `none` models the nil-pointer panic on a result
holding a timeout probe. -/
def Result.Anonymize (r : Result) : Option Result :=
  let r1 := anonIPs state0 r.LocalIPs
  match anonProbes r1.2 r.MappingProbes with
  | none => none
  | some r2 =>
    let r3 := anonFirewall r2.2 r.FirewallProbes
    some ⟨r1.1, r2.1, r3.1⟩

/-- The IPs `Anonymize` touches in one probe, in program order. -/
def probeSlots (p : MappingProbe) : List IP := [p.Local.ip, p.mappedD.ip, p.Remote.ip]

/-- The IPs `Anonymize` touches in the firewall probe. -/
def fwSlots : Option FirewallProbe → List IP
  | none => []
  | some fp => fp.Local.ip :: fp.Remote.ip :: fp.Received.map fun x => x.ip

/-- Every IP in a result, in the order `Anonymize` visits them. -/
def Result.slots (r : Result) : List IP :=
  r.LocalIPs ++ r.MappingProbes.flatMap probeSlots ++ fwSlots r.FirewallProbes

/-- `net.IPv4(a, a, b, b)` for the combined counter code `256 * a + b`. -/
def ipv4OfCode (c : Nat) : IP := ipv4 (c / 256) (c / 256) (c % 256) (c % 256)

/-- The `ips` map after the keys `ks` were assigned in order starting at
entry `j`: entry `j` holds the counter code `(257 + j) % 65536`. -/
def mkIps : List IP → Nat → List (IP × IP)
  | [], _ => []
  | k :: ks, j => (k, ipv4OfCode ((257 + j) % 65536)) :: mkIps ks (j + 1)

/-- The run state after the fresh keys `ks`: the byte pair `(a, b)` always
encodes `(257 + #assignments) % 65536` because `b++` with carry into `a`
is exactly a mod-65536 increment of `256 * a + b`. -/
def mkState (ks : List IP) : AnonState :=
  ⟨mkIps ks 0, (257 + ks.length) % 65536 / 256, (257 + ks.length) % 256⟩

/-- The fresh keys a run over a slot list appends to the existing keys
`ks`, in first-encounter order. -/
def accKeys (ks : List IP) : List IP → List IP
  | [] => ks
  | ip :: rest =>
    if passIP ip then accKeys ks rest
    else if ipKey ip ∈ ks then accKeys ks rest
    else accKeys (ks ++ [ipKey ip]) rest

/-- First-occurrence index of a key in a key list (used to phrase the
assignment order of an `Anonymize` run). -/
def idxK : List IP → IP → Nat
  | [], _ => 0
  | k0 :: ks, k => if k0 = k then 0 else idxK ks k + 1

/-- C7 counterexample input: two distinct IPs and nothing else. -/
def rAnonTwo : Result := ⟨[[1, 2, 3, 4], [5, 6, 7, 8]], [], none⟩

/-- C9 failing input: a result holding one timeout probe (nil `Mapped`). -/
def rTimeoutProbe : Result :=
  ⟨[], [⟨⟨[10, 0, 0, 1], 5000⟩, none, ⟨[9, 9, 9, 9], 443⟩, true⟩], none⟩

/-- Concrete results used as witnesses. -/
def rEmpty : Result := ⟨[], [], none⟩

def epRoundtrip : UDPAddr := ⟨[1, 2, 3, 4], 5000⟩

def fwWitness : FirewallProbe := ⟨⟨[10, 0, 0, 1], 5000⟩, ⟨[8, 8, 8, 8], 443⟩, [⟨[8, 8, 8, 8], 443⟩]⟩

def rFwWitness : Result := ⟨[], [], some fwWitness⟩

def rPreserve : Result :=
  ⟨[], [⟨⟨[10, 0, 0, 1], 5000⟩, some ⟨[9, 9, 9, 9], 5000⟩, ⟨[8, 8, 8, 8], 443⟩, false⟩], none⟩

/-- C3: a nil firewall probe yields false for both firewall predicates;
otherwise each predicate is true iff every received endpoint matches the
probed remote's IP (resp. port), and both are vacuously true on an empty
received list. -/
theorem firewallEnforces_spec (r : Result) :
    (r.FirewallProbes = none →
      (r.Analyze).FirewallEnforcesDestIP = false ∧
        (r.Analyze).FirewallEnforcesDestPort = false) ∧
    ∀ fp, r.FirewallProbes = some fp →
      (((r.Analyze).FirewallEnforcesDestIP = true ↔
          ∀ a ∈ fp.Received, ipEqual a.ip fp.Remote.ip = true) ∧
        ((r.Analyze).FirewallEnforcesDestPort = true ↔
          ∀ a ∈ fp.Received, a.port = fp.Remote.port) ∧
        (fp.Received = [] →
          (r.Analyze).FirewallEnforcesDestIP = true ∧
            (r.Analyze).FirewallEnforcesDestPort = true)) := by
  refine ⟨fun h => ?_, fun fp h => ⟨?_, ?_, fun hr => ?_⟩⟩
  · simp [Result.Analyze, firewallEnforcesDestIP, firewallEnforcesDestPort, h]
  · simp [Result.Analyze, firewallEnforcesDestIP, h, List.all_eq_true]
  · simp [Result.Analyze, firewallEnforcesDestPort, h, List.all_eq_true]
  · simp [Result.Analyze, firewallEnforcesDestIP, firewallEnforcesDestPort, h, hr]

theorem firewallEnforces_spec_witness :
    (Result.Analyze rFwWitness).FirewallEnforcesDestIP = true ∧
      (Result.Analyze rFwWitness).FirewallEnforcesDestPort = true := by
  have h := (firewallEnforces_spec rFwWitness).2 fwWitness rfl
  exact ⟨h.1.mpr (by decide), h.2.1.mpr (by decide)⟩

/-- C5: with zero non-timeout probes the port-preservation predicate is
false; with at least one it is true iff the preserved fraction is at least
0.8, i.e. iff `4 * total ≤ 5 * preserved`. -/
theorem mappingPreservesSourcePort_spec (r : Result) :
    ((nonTimeoutProbes r).length = 0 →
      (r.Analyze).MappingPreservesSourcePort = false) ∧
    (0 < (nonTimeoutProbes r).length →
      ((r.Analyze).MappingPreservesSourcePort = true ↔
        4 * (nonTimeoutProbes r).length ≤
          5 * ((nonTimeoutProbes r).filter fun p => p.Local.port == p.mappedD.port).length)) := by
  constructor
  · intro h
    have h0 : nonTimeoutProbes r = [] := List.length_eq_zero.mp h
    simp only [Result.Analyze, mappingPreservesSourcePort, h0, List.filter_nil,
      List.length_nil, Nat.cast_zero, decide_eq_false_iff_not, not_le]
    norm_num
  · intro h
    have hT : (0 : ℚ) < ((nonTimeoutProbes r).length : ℚ) := by exact_mod_cast h
    simp only [Result.Analyze, mappingPreservesSourcePort, decide_eq_true_eq]
    rw [div_le_div_iff₀ (by norm_num : (0 : ℚ) < 5) hT,
      mul_comm (((nonTimeoutProbes r).filter fun p => p.Local.port == p.mappedD.port).length : ℚ) 5]
    exact_mod_cast Iff.rfl

theorem mappingPreservesSourcePort_spec_witness :
    0 < (nonTimeoutProbes rPreserve).length ∧
      (Result.Analyze rPreserve).MappingPreservesSourcePort = true :=
  ⟨by decide, ((mappingPreservesSourcePort_spec rPreserve).2 (by decide)).mpr (by decide)⟩

/-- C10: if every mapping probe timed out (in particular when there are
none), `Analyze` reports both `NoData` and `NoNAT`; more generally
`NoData = true` implies `NoNAT = true` because `noNAT` is vacuously true
without non-timeout probes. -/
theorem noData_implies_noNAT (r : Result) :
    ((r.Analyze).NoData = true → (r.Analyze).NoNAT = true) ∧
    ((∀ p ∈ r.MappingProbes, p.Timeout = true) →
      (r.Analyze).NoData = true ∧ (r.Analyze).NoNAT = true) := by
  have hN : (∀ p ∈ r.MappingProbes, p.Timeout = true) → noNAT r = true := by
    intro h
    simp only [noNAT, List.all_eq_true]
    intro p hp
    simp [h p hp]
  have hD : (∀ p ∈ r.MappingProbes, p.Timeout = true) → noData r = true := by
    intro h
    simp only [noData]
    split
    · rfl
    · simpa [List.all_eq_true] using h
  constructor
  · intro h
    refine hN ?_
    simp only [Result.Analyze, noData] at h
    rcases hsplit : r.MappingProbes.length with _ | n
    · intro p hp
      simp [List.length_eq_zero.mp hsplit] at hp
    · rw [hsplit, if_neg (by omega)] at h
      simpa [List.all_eq_true] using h
  · intro h
    exact ⟨hD h, hN h⟩

theorem noData_implies_noNAT_witness :
    (Result.Analyze rEmpty).NoData = true ∧ (Result.Analyze rEmpty).NoNAT = true :=
  (noData_implies_noNAT rEmpty).2 (by simp [rEmpty])

theorem mvdIPLoop_eq_spec (ps : List MappingProbe) :
    ∀ (lk : Option (IP × Nat)) (rip mip : IP) (mp : Nat),
      mvdIPLoop ps lk rip mip mp =
        specVariesByDestIPLoop ps (lk.map fun l => ⟨l, rip, mip, mp⟩) := by
  induction ps with
  | nil => intro lk rip mip mp; cases lk <;> rfl
  | cons p ps ih =>
    intro lk rip mip mp
    cases lk with
    | none =>
      by_cases ht : p.Timeout = true <;>
        simp [mvdIPLoop, specVariesByDestIPLoop, ht, ih]
    | some l =>
      by_cases ht : p.Timeout = true
      · simp [mvdIPLoop, specVariesByDestIPLoop, ht, ih]
      · by_cases hl : epKey p.Local = l
        · by_cases hri : ipEqual p.Remote.ip rip = true
          · simp [mvdIPLoop, specVariesByDestIPLoop, ht, hl, hri, ih]
          · by_cases hmi : ipEqual p.mappedD.ip mip = true <;>
              by_cases hmp : p.mappedD.port = mp <;>
                simp [mvdIPLoop, specVariesByDestIPLoop, ht, hl, hri, hmi, hmp, ih]
        · simp [mvdIPLoop, specVariesByDestIPLoop, ht, hl, ih]

theorem mvdPortLoop_eq_spec (ps : List MappingProbe) :
    ∀ (lk : Option (IP × Nat)) (rp : Nat) (mip : IP) (mp : Nat),
      mvdPortLoop ps lk rp mip mp =
        specVariesByDestPortLoop ps (lk.map fun l => ⟨l, rp, mip, mp⟩) := by
  induction ps with
  | nil => intro lk rp mip mp; cases lk <;> rfl
  | cons p ps ih =>
    intro lk rp mip mp
    cases lk with
    | none =>
      by_cases ht : p.Timeout = true <;>
        simp [mvdPortLoop, specVariesByDestPortLoop, ht, ih]
    | some l =>
      by_cases ht : p.Timeout = true
      · simp [mvdPortLoop, specVariesByDestPortLoop, ht, ih]
      · by_cases hl : epKey p.Local = l
        · by_cases hri : p.Remote.port = rp
          · simp [mvdPortLoop, specVariesByDestPortLoop, ht, hl, hri, ih]
          · by_cases hmi : ipEqual p.mappedD.ip mip = true <;>
              by_cases hmp : p.mappedD.port = mp <;>
                simp [mvdPortLoop, specVariesByDestPortLoop, ht, hl, hri, hmi, hmp, ih]
        · simp [mvdPortLoop, specVariesByDestPortLoop, ht, hl, ih]

/-- C2: the analyzer's varies-by-destination predicates coincide with the
anchor-scan described by the spec, on both axes. -/
theorem mappingVaries_matches_spec_scan (r : Result) :
    (r.Analyze).MappingVariesByDestIP = specVariesByDestIP r ∧
      (r.Analyze).MappingVariesByDestPort = specVariesByDestPort r :=
  ⟨mvdIPLoop_eq_spec r.MappingProbes none [] [] 0,
    mvdPortLoop_eq_spec r.MappingProbes none 0 [] 0⟩

theorem feLoop_mem (x : Nat) : ∀ (ps : List MappingProbe) (w : List Nat),
    x ∈ feLoop ps w ↔ x ∉ w ∧ ∃ p ∈ ps, p.Timeout = true ∧ p.Remote.port = x := by
  intro ps
  induction ps with
  | nil => intro w; simp [feLoop]
  | cons p ps ih =>
    intro w
    by_cases ht : p.Timeout = true
    · by_cases hw : p.Remote.port ∈ w
      · rw [show feLoop (p :: ps) w = feLoop ps w by simp [feLoop, ht, hw], ih]
        constructor
        · rintro ⟨hnw, q, hq, hqt, hqp⟩
          exact ⟨hnw, q, List.mem_cons_of_mem _ hq, hqt, hqp⟩
        · rintro ⟨hnw, q, hq, hqt, hqp⟩
          rcases List.mem_cons.mp hq with rfl | hq2
          · exact absurd (hqp ▸ hw) hnw
          · exact ⟨hnw, q, hq2, hqt, hqp⟩
      · rw [show feLoop (p :: ps) w = p.Remote.port :: feLoop ps (p.Remote.port :: w) by
          simp [feLoop, ht, hw]]
        rw [List.mem_cons, ih]
        constructor
        · rintro (rfl | ⟨hnw, q, hq, hqt, hqp⟩)
          · exact ⟨hw, p, List.mem_cons_self _ _, ht, rfl⟩
          · exact ⟨fun hx => hnw (List.mem_cons_of_mem _ hx), q,
              List.mem_cons_of_mem _ hq, hqt, hqp⟩
        · rintro ⟨hnw, q, hq, hqt, hqp⟩
          by_cases hx : x = p.Remote.port
          · exact Or.inl hx
          · refine Or.inr ⟨?_, ?_⟩
            · intro hmem
              rcases List.mem_cons.mp hmem with h1 | h2
              · exact hx h1
              · exact hnw h2
            · rcases List.mem_cons.mp hq with rfl | hq2
              · exact absurd hqp.symm hx
              · exact ⟨q, hq2, hqt, hqp⟩
    · rw [show feLoop (p :: ps) w = feLoop ps w by simp [feLoop, ht], ih]
      constructor
      · rintro ⟨hnw, q, hq, hqt, hqp⟩
        exact ⟨hnw, q, List.mem_cons_of_mem _ hq, hqt, hqp⟩
      · rintro ⟨hnw, q, hq, hqt, hqp⟩
        rcases List.mem_cons.mp hq with rfl | hq2
        · exact absurd hqt ht
        · exact ⟨hnw, q, hq2, hqt, hqp⟩

theorem feLoop_nodup : ∀ (ps : List MappingProbe) (w : List Nat), (feLoop ps w).Nodup := by
  intro ps
  induction ps with
  | nil => intro w; simp [feLoop]
  | cons p ps ih =>
    intro w
    by_cases hc : (p.Timeout && !w.contains p.Remote.port) = true
    · have hstep : feLoop (p :: ps) w = p.Remote.port :: feLoop ps (p.Remote.port :: w) := by
        simp only [feLoop]
        rw [if_pos hc]
      rw [hstep]
      refine List.nodup_cons.mpr ⟨?_, ih _⟩
      intro hmem
      exact ((feLoop_mem _ _ _).mp hmem).1 (List.mem_cons_self _ _)
    · have hstep : feLoop (p :: ps) w = feLoop ps w := by
        simp only [feLoop]
        rw [if_neg hc]
      rw [hstep]
      exact ih _

/-- C4: `filtered_egress` is an ascending, duplicate-free list holding
exactly the remote ports targeted by at least one mapping probe all of
whose targeting probes timed out. -/
theorem filteredEgress_spec (r : Result) :
    List.Sorted (· ≤ ·) (r.Analyze).FilteredEgress ∧
    (r.Analyze).FilteredEgress.Nodup ∧
    ∀ p : Nat, p ∈ (r.Analyze).FilteredEgress ↔
      ((∃ q ∈ r.MappingProbes, q.Remote.port = p) ∧
        ∀ q ∈ r.MappingProbes, q.Remote.port = p → q.Timeout = true) := by
  have hFE : (r.Analyze).FilteredEgress =
      List.insertionSort (· ≤ ·)
        (feLoop r.MappingProbes ((nonTimeoutProbes r).map fun p => p.Remote.port)) := rfl
  have hperm := List.perm_insertionSort (· ≤ ·)
    (feLoop r.MappingProbes ((nonTimeoutProbes r).map fun p => p.Remote.port))
  refine ⟨hFE ▸ List.sorted_insertionSort _ _, ?_, ?_⟩
  · rw [hFE]
    exact hperm.nodup_iff.mpr (feLoop_nodup _ _)
  · intro p
    rw [hFE, hperm.mem_iff, feLoop_mem]
    constructor
    · rintro ⟨hnw, q, hq, hqt, hqp⟩
      refine ⟨⟨q, hq, hqp⟩, ?_⟩
      intro q2 hq2 hp2
      by_contra hnt
      refine hnw (List.mem_map.mpr ⟨q2, ?_, hp2⟩)
      exact List.mem_filter.mpr ⟨hq2, by simp [hnt]⟩
    · rintro ⟨⟨q, hq, hqp⟩, hall⟩
      refine ⟨?_, q, hq, hall q hq hqp, hqp⟩
      intro hmem
      rcases List.mem_map.mp hmem with ⟨q2, hq2f, hq2p⟩
      rcases List.mem_filter.mp hq2f with ⟨hq2, hq2nt⟩
      have := hall q2 hq2 hq2p
      simp [this] at hq2nt

theorem transmitFrames_cycle_get (n : Nat) : ∀ (st k : Nat), k < n →
    (transmitFrames true st n)[k]? = some (reqFrame ((st + k + 1) % 4)) := by
  induction n with
  | zero => intro st k h; omega
  | succ n ih =>
    intro st k h
    cases k with
    | zero => simp [transmitFrames]
    | succ k =>
      have hk := ih ((st + 1) % 4) k (by omega)
      rw [show transmitFrames true st (n + 1) =
          reqFrame ((st + 1) % 4) :: transmitFrames true ((st + 1) % 4) n from rfl]
      rw [List.getElem?_cons_succ, hk]
      congr 2
      omega

theorem transmitFrames_nocycle_get (n : Nat) : ∀ (st k : Nat), k < n →
    (transmitFrames false st n)[k]? = some (reqFrame st) := by
  induction n with
  | zero => intro st k h; omega
  | succ n ih =>
    intro st k h
    cases k with
    | zero => simp [transmitFrames]
    | succ k =>
      simpa [transmitFrames] using ih st k (by omega)

/-- C6 (amended): in the firewall phase the k-th transmitted frame
(0-indexed) has byte 0 equal to `(k + 1) % 4` — the sequence is
1, 2, 3, 0, 1, …, since `transmit` increments `req[0]` before the first
send; in the mapping phase every frame has byte 0 equal to zero. -/
theorem transmit_byte0_sequence (n k : Nat) (h : k < n) :
    (transmitFrames true 0 n)[k]? = some (reqFrame ((k + 1) % 4)) ∧
    (transmitFrames false 0 n)[k]? = some (reqFrame 0) := by
  refine ⟨?_, transmitFrames_nocycle_get n 0 k h⟩
  simpa using transmitFrames_cycle_get n 0 k h

theorem transmit_byte0_sequence_witness :
    (transmitFrames true 0 4)[3]? = some (reqFrame 0) ∧
      (transmitFrames false 0 4)[3]? = some (reqFrame 0) := by
  have h := transmit_byte0_sequence 4 3 (by omega)
  exact ⟨by simpa using h.1, h.2⟩

/-- C6 counterexample: the claim says the firewall-phase byte-0 sequence
starts at 0 on the first transmission; in fact `transmit` increments
`req[0]` before sending, so the first frame carries byte 0 = 1. -/
theorem transmit_first_firewall_frame_byte0_one :
    (transmitFrames true 0 1)[0]? = some (reqFrame 1) ∧ reqFrame 1 ≠ reqFrame 0 := by
  exact ⟨rfl, by decide⟩

/-- C8: encoding a client endpoint the way the server does and decoding the
way the client does preserves the endpoint: the decoded IP `Equal`s the
original (a 4-byte address comes back as its 4-in-6 mapped form, which
`Equal` identifies with the contained IPv4), and every port below 65536 is
preserved exactly. -/
theorem reflection_roundtrip (c : UDPAddr) (hl : c.ip.length = 4 ∨ c.ip.length = 16)
    (hp : c.port < 65536) :
    ∃ f, serverEncode c = some f ∧ f.length = 18 ∧
      ipEqual (clientDecode f).ip c.ip = true ∧ (clientDecode f).port = c.port := by
  have hport : 256 * (c.port % 65536 / 256) + c.port % 256 = c.port := by omega
  rcases hl with h4 | h16
  · refine ⟨(v4in6 ++ c.ip) ++ [c.port % 65536 / 256, c.port % 256], ?_, ?_, ?_, ?_⟩
    · simp [serverEncode, ipTo16, h4]
    · simp [v4in6, h4]
    · have hlen : (v4in6 ++ c.ip).length = 16 := by simp [v4in6, h4]
      have htake : ((v4in6 ++ c.ip) ++ [c.port % 65536 / 256, c.port % 256]).take 16 =
          v4in6 ++ c.ip := List.take_left' hlen
      simp only [clientDecode, htake]
      have h1 : ¬ (v4in6 ++ c.ip).length = c.ip.length := by simp [v4in6, h4]
      have h2 : ¬ ((v4in6 ++ c.ip).length = 4 ∧ c.ip.length = 16) := by simp [v4in6, h4]
      have ht12 : (v4in6 ++ c.ip).take 12 = v4in6 := List.take_left' (by simp [v4in6])
      have hd12 : (v4in6 ++ c.ip).drop 12 = c.ip := List.drop_left' (by simp [v4in6])
      simp [ipEqual, h1, h2, hlen, h4, ht12, hd12]
    · have hlen : (v4in6 ++ c.ip).length = 16 := by simp [v4in6, h4]
      simp only [clientDecode]
      rw [List.getD_eq_getElem?_getD, List.getD_eq_getElem?_getD,
        List.getElem?_append_right hlen.le,
        List.getElem?_append_right (hlen.le.trans (by omega)), hlen]
      simpa using hport
  · refine ⟨c.ip ++ [c.port % 65536 / 256, c.port % 256], ?_, ?_, ?_, ?_⟩
    · simp [serverEncode, ipTo16, h16]
    · simp [h16]
    · have htake : (c.ip ++ [c.port % 65536 / 256, c.port % 256]).take 16 = c.ip :=
        List.take_left' h16
      simp [clientDecode, htake, ipEqual]
    · simp only [clientDecode]
      rw [List.getD_eq_getElem?_getD, List.getD_eq_getElem?_getD,
        List.getElem?_append_right (by omega : c.ip.length ≤ 16),
        List.getElem?_append_right (by omega : c.ip.length ≤ 17), h16]
      simpa using hport

theorem reflection_roundtrip_witness :
    ∃ f, serverEncode epRoundtrip = some f ∧ f.length = 18 ∧
      ipEqual (clientDecode f).ip epRoundtrip.ip = true ∧
      (clientDecode f).port = epRoundtrip.port :=
  reflection_roundtrip epRoundtrip (Or.inl (by decide)) (by decide)

/-- C1 failing input: a socket that received no reply for its single
destination.  `probeOneMapping` returns the empty probe list — the timeout
record built by its deferred closure is lost because the results are
unnamed — while the claim requires exactly one timeout `MappingProbe` for
the (socket, destination) pair. -/
theorem probeOneMapping_timeout_records_lost :
    probeOneMapping pomLcl [pomDest] [] = [] ∧
      pomDeferredTimeouts pomLcl [pomDest] [] = [⟨pomLcl, none, pomDest, true⟩] := by
  exact ⟨rfl, by decide⟩

theorem idxK_append_left (k : IP) : ∀ (ks t : List IP), k ∈ ks →
    idxK (ks ++ t) k = idxK ks k := by
  intro ks
  induction ks with
  | nil => intro t h; cases h
  | cons k0 ks ih =>
    intro t h
    by_cases h0 : k0 = k
    · simp [idxK, h0]
    · rcases List.mem_cons.mp h with rfl | hm
      · exact absurd rfl h0
      · simp [idxK, h0, ih t hm]

theorem idxK_append_self (k : IP) : ∀ (ks : List IP), k ∉ ks →
    idxK (ks ++ [k]) k = ks.length := by
  intro ks
  induction ks with
  | nil => intro h; simp [idxK]
  | cons k0 ks ih =>
    intro h
    have h0 : k0 ≠ k := by
      rintro rfl
      exact h (List.mem_cons_self _ _)
    simp [idxK, h0, ih fun hm => h (List.mem_cons_of_mem _ hm)]

theorem lookupA_mkIps (k : IP) : ∀ (ks : List IP) (j : Nat),
    lookupA (mkIps ks j) k =
      if k ∈ ks then some (ipv4OfCode ((257 + (j + idxK ks k)) % 65536)) else none := by
  intro ks
  induction ks with
  | nil => intro j; simp [mkIps, lookupA]
  | cons k0 ks ih =>
    intro j
    simp only [mkIps, lookupA]
    by_cases h : k0 = k
    · subst h
      rw [if_pos rfl, if_pos (List.mem_cons_self _ _)]
      simp [idxK]
    · rw [if_neg h, ih (j + 1), show idxK (k0 :: ks) k = idxK ks k + 1 from by simp [idxK, h]]
      by_cases hm : k ∈ ks
      · rw [if_pos hm, if_pos (List.mem_cons_of_mem _ hm)]
        congr 2
        omega
      · rw [if_neg hm, if_neg (by simp [Ne.symm h, hm])]

theorem mkIps_append (k : IP) : ∀ (ks : List IP) (j : Nat),
    mkIps (ks ++ [k]) j =
      mkIps ks j ++ [(k, ipv4OfCode ((257 + (j + ks.length)) % 65536))] := by
  intro ks
  induction ks with
  | nil => intro j; simp [mkIps]
  | cons k0 ks ih =>
    intro j
    simp only [List.cons_append, mkIps, List.length_cons, List.append_eq]
    rw [ih (j + 1), (by omega : 257 + (j + 1 + ks.length) = 257 + (j + (ks.length + 1)))]

theorem accKeys_sub : ∀ (L ks : List IP), ∃ t, accKeys ks L = ks ++ t := by
  intro L
  induction L with
  | nil => intro ks; exact ⟨[], by simp [accKeys]⟩
  | cons ip rest ih =>
    intro ks
    by_cases hp : passIP ip = true
    · rw [show accKeys ks (ip :: rest) = accKeys ks rest from by simp [accKeys, hp]]
      exact ih ks
    · by_cases hm : ipKey ip ∈ ks
      · rw [show accKeys ks (ip :: rest) = accKeys ks rest from by simp [accKeys, hp, hm]]
        exact ih ks
      · rw [show accKeys ks (ip :: rest) = accKeys (ks ++ [ipKey ip]) rest from by
          simp [accKeys, hp, hm]]
        rcases ih (ks ++ [ipKey ip]) with ⟨t, ht⟩
        exact ⟨ipKey ip :: t, by simp [ht]⟩

theorem accKeys_nodup : ∀ (L ks : List IP), ks.Nodup → (accKeys ks L).Nodup := by
  intro L
  induction L with
  | nil => intro ks h; simpa [accKeys] using h
  | cons ip rest ih =>
    intro ks h
    by_cases hp : passIP ip = true
    · rw [show accKeys ks (ip :: rest) = accKeys ks rest from by simp [accKeys, hp]]
      exact ih ks h
    · by_cases hm : ipKey ip ∈ ks
      · rw [show accKeys ks (ip :: rest) = accKeys ks rest from by simp [accKeys, hp, hm]]
        exact ih ks h
      · rw [show accKeys ks (ip :: rest) = accKeys (ks ++ [ipKey ip]) rest from by
          simp [accKeys, hp, hm]]
        exact ih _ (by simp [List.nodup_append, h, hm])

theorem idxK_accKeys (L ks : List IP) (k : IP) (h : k ∈ ks) :
    idxK (accKeys ks L) k = idxK ks k := by
  rcases accKeys_sub L ks with ⟨t, ht⟩
  rw [ht, idxK_append_left k ks t h]

theorem mem_accKeys (L ks : List IP) (k : IP) (h : k ∈ ks) : k ∈ accKeys ks L := by
  rcases accKeys_sub L ks with ⟨t, ht⟩
  rw [ht]
  exact List.mem_append_left _ h

theorem anonOne_mkState_pass (ks : List IP) (ip : IP) (hp : passIP ip = true) :
    anonOne (mkState ks) ip = (ip, mkState ks) := by
  simp [anonOne, hp]

theorem anonOne_mkState_mem (ks : List IP) (ip : IP) (hp : ¬ passIP ip = true)
    (hm : ipKey ip ∈ ks) :
    anonOne (mkState ks) ip =
      (ipv4OfCode ((257 + idxK ks (ipKey ip)) % 65536), mkState ks) := by
  simp only [anonOne, hp, if_false, mkState]
  rw [lookupA_mkIps, if_pos hm]
  simp

theorem anonOne_mkState_fresh (ks : List IP) (ip : IP) (hp : ¬ passIP ip = true)
    (hm : ipKey ip ∉ ks) :
    anonOne (mkState ks) ip =
      (ipv4OfCode ((257 + ks.length) % 65536), mkState (ks ++ [ipKey ip])) := by
  have hmod : (257 + ks.length) % 65536 % 256 = (257 + ks.length) % 256 :=
    Nat.mod_mod_of_dvd _ (by norm_num)
  have hmk := mkIps_append (ipKey ip) ks 0
  simp only [Nat.zero_add] at hmk
  have hfalse : passIP ip = false := eq_false_of_ne_true hp
  simp only [anonOne, hfalse, Bool.false_eq_true, if_false, mkState]
  rw [lookupA_mkIps, if_neg hm]
  simp only [Prod.mk.injEq, AnonState.mk.injEq, List.length_append, List.length_cons,
    List.length_nil]
  refine ⟨?_, ?_, ?_, ?_⟩
  · simp only [ipv4OfCode]
    rw [hmod]
  · rw [hmk]
    simp only [ipv4OfCode]
    rw [hmod]
  · by_cases hb : ((257 + ks.length) % 256 + 1) % 256 = 0
    · rw [if_pos hb]
      omega
    · rw [if_neg hb]
      omega
  · omega

theorem anonIPs_mkState : ∀ (L ks : List IP), ks.Nodup →
    anonIPs (mkState ks) L =
      ((L.map fun ip =>
          if passIP ip then ip
          else ipv4OfCode ((257 + idxK (accKeys ks L) (ipKey ip)) % 65536)),
        mkState (accKeys ks L)) := by
  intro L
  induction L with
  | nil => intro ks h; simp [anonIPs, accKeys]
  | cons ip rest ih =>
    intro ks h
    rw [show anonIPs (mkState ks) (ip :: rest) =
        ((anonOne (mkState ks) ip).1 :: (anonIPs (anonOne (mkState ks) ip).2 rest).1,
          (anonIPs (anonOne (mkState ks) ip).2 rest).2) from rfl]
    by_cases hp : passIP ip = true
    · have hacc : accKeys ks (ip :: rest) = accKeys ks rest := by simp [accKeys, hp]
      rw [anonOne_mkState_pass ks ip hp]
      rw [hacc, ih ks h]
      simp [hp]
    · by_cases hm : ipKey ip ∈ ks
      · have hacc : accKeys ks (ip :: rest) = accKeys ks rest := by simp [accKeys, hp, hm]
        rw [anonOne_mkState_mem ks ip hp hm]
        rw [hacc, ih ks h]
        simp only [List.map_cons]
        rw [if_neg hp, idxK_accKeys rest ks _ hm]
      · have hacc : accKeys ks (ip :: rest) = accKeys (ks ++ [ipKey ip]) rest := by
          simp [accKeys, hp, hm]
        have hnd : (ks ++ [ipKey ip]).Nodup := by simp [List.nodup_append, h, hm]
        rw [anonOne_mkState_fresh ks ip hp hm]
        rw [hacc, ih (ks ++ [ipKey ip]) hnd]
        simp only [List.map_cons]
        rw [if_neg hp, idxK_accKeys rest (ks ++ [ipKey ip]) _ (by simp),
          idxK_append_self _ ks hm]

theorem mkState_nil : mkState [] = state0 := rfl

theorem anonIPs_append (L1 : List IP) : ∀ (L2 : List IP) (s : AnonState),
    anonIPs s (L1 ++ L2) =
      ((anonIPs s L1).1 ++ (anonIPs (anonIPs s L1).2 L2).1,
        (anonIPs (anonIPs s L1).2 L2).2) := by
  induction L1 with
  | nil => intro L2 s; simp [anonIPs]
  | cons ip rest ih =>
    intro L2 s
    rw [List.cons_append,
      show anonIPs s (ip :: (rest ++ L2)) =
        ((anonOne s ip).1 :: (anonIPs (anonOne s ip).2 (rest ++ L2)).1,
          (anonIPs (anonOne s ip).2 (rest ++ L2)).2) from rfl,
      show anonIPs s (ip :: rest) =
        ((anonOne s ip).1 :: (anonIPs (anonOne s ip).2 rest).1,
          (anonIPs (anonOne s ip).2 rest).2) from rfl,
      ih L2 (anonOne s ip).2]
    simp

theorem anonProbes_slots : ∀ (ps : List MappingProbe) (s : AnonState)
    (ps2 : List MappingProbe) (s2 : AnonState),
    anonProbes s ps = some (ps2, s2) →
      ps2.flatMap probeSlots = (anonIPs s (ps.flatMap probeSlots)).1 ∧
      s2 = (anonIPs s (ps.flatMap probeSlots)).2 := by
  intro ps
  induction ps with
  | nil =>
    intro s ps2 s2 h
    simp only [anonProbes, Option.some.injEq, Prod.mk.injEq] at h
    simp [← h.1, ← h.2, anonIPs]
  | cons p ps ih =>
    intro s ps2 s2 h
    cases hm : p.Mapped with
    | none => simp [anonProbes, anonProbe, hm] at h
    | some m =>
      have hps : probeSlots p = [p.Local.ip, m.ip, p.Remote.ip] := by
        simp [probeSlots, MappingProbe.mappedD, hm]
      have hstep : anonProbe s p =
          some (⟨⟨(anonOne s p.Local.ip).1, p.Local.port⟩,
              some ⟨(anonOne (anonOne s p.Local.ip).2 m.ip).1, m.port⟩,
              ⟨(anonOne (anonOne (anonOne s p.Local.ip).2 m.ip).2 p.Remote.ip).1,
                p.Remote.port⟩, p.Timeout⟩,
            (anonOne (anonOne (anonOne s p.Local.ip).2 m.ip).2 p.Remote.ip).2) := by
        simp [anonProbe, hm, anonAddr]
      rw [show anonProbes s (p :: ps) =
          match anonProbe s p with
          | none => none
          | some r =>
            match anonProbes r.2 ps with
            | none => none
            | some r2 => some (r.1 :: r2.1, r2.2) from rfl] at h
      cases htail : anonProbes (anonOne (anonOne (anonOne s p.Local.ip).2 m.ip).2
          p.Remote.ip).2 ps with
      | none => simp [hstep, htail] at h
      | some r2 =>
        simp only [hstep, htail, Option.some.injEq, Prod.mk.injEq] at h
        obtain ⟨tl, s3⟩ := r2
        have hih := ih _ tl s3 htail
        have hstate : (anonIPs s [p.Local.ip, m.ip, p.Remote.ip]).2 =
            (anonOne (anonOne (anonOne s p.Local.ip).2 m.ip).2 p.Remote.ip).2 := by
          simp [anonIPs]
        have hlist : (anonIPs s [p.Local.ip, m.ip, p.Remote.ip]).1 =
            [(anonOne s p.Local.ip).1, (anonOne (anonOne s p.Local.ip).2 m.ip).1,
              (anonOne (anonOne (anonOne s p.Local.ip).2 m.ip).2 p.Remote.ip).1] := by
          simp [anonIPs]
        rw [List.flatMap_cons, hps, anonIPs_append]
        constructor
        · rw [← h.1, List.flatMap_cons, hstate, ← hih.1, hlist]
          simp [probeSlots, MappingProbe.mappedD]
        · rw [← h.2, hstate]
          exact hih.2

theorem anonAddrs_slots : ∀ (xs : List UDPAddr) (s : AnonState),
    (anonAddrs s xs).1.map (fun x => x.ip) = (anonIPs s (xs.map fun x => x.ip)).1 ∧
    (anonAddrs s xs).2 = (anonIPs s (xs.map fun x => x.ip)).2 := by
  intro xs
  induction xs with
  | nil => intro s; simp [anonAddrs, anonIPs]
  | cons x xs ih =>
    intro s
    have h1 := ih (anonOne s x.ip).2
    simp only [anonAddrs, anonAddr, anonIPs, List.map_cons]
    exact ⟨by rw [h1.1], by rw [h1.2]⟩

theorem anonFirewall_slots (s : AnonState) (fw : Option FirewallProbe) :
    fwSlots (anonFirewall s fw).1 = (anonIPs s (fwSlots fw)).1 ∧
    (anonFirewall s fw).2 = (anonIPs s (fwSlots fw)).2 := by
  cases fw with
  | none => simp [anonFirewall, fwSlots, anonIPs]
  | some fp =>
    have h1 := anonAddrs_slots fp.Received (anonOne (anonOne s fp.Local.ip).2 fp.Remote.ip).2
    simp only [anonFirewall, anonAddr, fwSlots, anonIPs]
    exact ⟨by rw [h1.1], by rw [h1.2]⟩

theorem anonymize_slots (r r2 : Result) (h : r.Anonymize = some r2) :
    Result.slots r2 = (anonIPs state0 (Result.slots r)).1 := by
  rw [show r.Anonymize =
      match anonProbes (anonIPs state0 r.LocalIPs).2 r.MappingProbes with
      | none => none
      | some rr =>
        some ⟨(anonIPs state0 r.LocalIPs).1, rr.1,
          (anonFirewall rr.2 r.FirewallProbes).1⟩ from rfl] at h
  cases hp : anonProbes (anonIPs state0 r.LocalIPs).2 r.MappingProbes with
  | none => simp [hp] at h
  | some pr =>
    simp only [hp, Option.some.injEq] at h
    obtain ⟨ps2, s2⟩ := pr
    have hprobes := anonProbes_slots r.MappingProbes _ ps2 s2 hp
    have hfw := anonFirewall_slots s2 r.FirewallProbes
    subst h
    simp only [Result.slots]
    rw [anonIPs_append, anonIPs_append]
    dsimp only
    rw [← hprobes.2, hfw.1, hprobes.1]

/-- C7 (amended): whenever `Anonymize` completes (every probe has a non-nil
`Mapped`), it rewrites the result's IPs position by position: empty and
unspecified IPs pass through unchanged, and every other IP is replaced by
the IPv4 of the form a.a.b.b whose byte pair, read as `256 * a + b`,
equals `(257 + j) mod 65536` for `j` the first-encounter index of the
IP's string key — the counters start at `(1, 1)` and the single counter
`b` steps once per fresh assignment, carrying into `a` when it wraps to 0.
In particular the same input IP receives the same output IP everywhere in
the result. -/
theorem anonymize_characterization (r r2 : Result) (h : r.Anonymize = some r2) :
    Result.slots r2 = (Result.slots r).map fun ip =>
      if passIP ip then ip
      else ipv4OfCode ((257 + idxK (accKeys [] (Result.slots r)) (ipKey ip)) % 65536) := by
  rw [anonymize_slots r r2 h, ← mkState_nil,
    anonIPs_mkState (Result.slots r) [] List.nodup_nil]

/-- C7 counterexample: the claim's counters b1.b2 "walking 1..255 with
carry" would make the second fresh assignment 1.1.1.2; the code assigns
`net.IPv4(a, a, b, b)` with a single stepped pair, so the second fresh IP
is 1.1.2.2. -/
theorem anonymize_counter_walk_counterexample :
    Result.Anonymize rAnonTwo = some ⟨[ipv4 1 1 1 1, ipv4 1 1 2 2], [], none⟩ ∧
      (ipv4 1 1 2 2 : IP) ≠ ipv4 1 1 1 2 := by
  exact ⟨by decide, by decide⟩

theorem anonymize_characterization_witness :
    Result.Anonymize rAnonTwo = some ⟨[ipv4 1 1 1 1, ipv4 1 1 2 2], [], none⟩ ∧
      Result.slots ⟨[ipv4 1 1 1 1, ipv4 1 1 2 2], [], none⟩ =
        (Result.slots rAnonTwo).map fun ip =>
          if passIP ip then ip
          else ipv4OfCode ((257 + idxK (accKeys [] (Result.slots rAnonTwo)) (ipKey ip)) % 65536) :=
  ⟨by decide,
    anonymize_characterization rAnonTwo ⟨[ipv4 1 1 1 1, ipv4 1 1 2 2], [], none⟩ (by decide)⟩

/-- C9 failing input evaluated: on a result holding a timeout probe the Go
`Anonymize` dereferences the nil `Mapped` pointer (`probe.Mapped.IP`) and
panics, so no anonymized result exists — neither the idempotence nor the
injectivity stated by the claim can be exercised. -/
theorem anonymize_panics_on_timeout_probe :
    Result.Anonymize rTimeoutProbe = none := by decide
